import Mathlib

/-!
Verification of the genesis project document model and its OS / ring-buffer
collaborators against the natural-language specification.

The OS layer (`src/os.cpp`) and the ring buffer (`src/ring_buffer.hpp`) are
embedded directly from their source.  The project document model is declared
in `src/project.hpp` but its implementation (`project.cpp`, `sort_key.cpp`)
is not part of the provided sources; those parts are modelled from the
specification, as marked in the individual doc comments.
-/

namespace Genesis

/-! ## Error codes (from `genesis.h` / `error.h`, as used by `src/os.cpp`) -/

/-- Typed error codes of the `GenesisError*` family, restricted to the codes
that appear in `src/os.cpp`. -/
inductive GenesisError where
  | NoMem
  | FileAccess
  | FileNotFound
  | PermissionDenied
  | SystemResources
  | NotDir
  | Unimplemented
deriving DecidableEq, Repr

/-! ## Random seed acquisition (`src/os.cpp`, `get_random_seed` / `os_init`) -/

/-- Outcome of the `/dev/random` interaction inside `get_random_seed`:
either `open` fails, or `read` returns `amt` bytes (together with the seed
value those bytes would hold). -/
inductive EntropySource where
  | openFails
  | readReturns (amt : ℤ) (seed : ℕ)
deriving DecidableEq

/-- Embedding of `get_random_seed` (src/os.cpp lines 48-61): an `open`
failure or a read of fewer than 4 bytes yields `GenesisErrorSystemResources`;
otherwise the 4-byte seed is returned. -/
def get_random_seed : EntropySource → Except GenesisError ℕ
  | .openFails => .error .SystemResources
  | .readReturns amt seed => if amt ≠ 4 then .error .SystemResources else .ok seed

/-- The `OsRandomQuality` enum from `os.hpp` as used by `os_init`. -/
inductive OsRandomQuality where
  | Robust
  | Pseudo
deriving DecidableEq

/-- Result of process initialization: either `panic` was called (the process
aborts) or the random state is initialized from the given seed. -/
inductive InitOutcome where
  | panicked
  | ok (seed : ℕ)
deriving DecidableEq

/-- Embedding of `os_init` (src/os.cpp lines 80-95).  `time` and `pid` model
`time(nullptr)` and `getpid()`.  On the `Robust` path a failure of
`get_random_seed` calls `panic`, aborting the process; on the `Pseudo` path
the seed is `time + pid` and entropy is never consulted. -/
def os_init (quality : OsRandomQuality) (entropy : EntropySource)
    (time pid : ℕ) : InitOutcome :=
  match quality with
  | .Robust =>
    match get_random_seed entropy with
    | .error _ => .panicked
    | .ok seed => .ok seed
  | .Pseudo => .ok (time + pid)

/-! ## Path join (`src/os.cpp`, `os_path_join`) -/

/-- Embedding of `os_path_join` (src/os.cpp lines 206-209).  A `ByteBuffer`
is modelled as a list of characters.  The source selects the format string
`"%s%s"` when the last byte of `left` is `'/'` and `"%s/%s"` otherwise; for
an empty `left` the source reads `left.at(-1)`, which is out of bounds, so
the model is only meaningful for non-empty `left`. -/
def os_path_join (left right : List Char) : List Char :=
  let omitSep : Bool := left.getLast? = some '/'
  if omitSep then left ++ right else left ++ '/' :: right

/-! ## Directory listing (`src/os.cpp`, `os_readdir`) -/

/-- The errno values distinguished by `os_readdir`. -/
inductive Errno where
  | EACCES
  | EMFILE
  | ENFILE
  | ENOENT
  | ENOMEM
  | ENOTDIR
  | ELOOP
  | ENAMETOOLONG
  | EOVERFLOW
  | otherErrno
deriving DecidableEq

/-- The fields of `struct stat` that `os_readdir` consults. -/
structure StatInfo where
  isDir : Bool
  isFile : Bool
  isLink : Bool
  size : ℕ
  mtime : ℕ
deriving DecidableEq

/-- Outcome of `stat` on one directory entry's full path. -/
inductive StatResult where
  | ok (st : StatInfo)
  | err (e : Errno)
deriving DecidableEq

/-- One raw `dirent` as produced by `readdir`, together with the outcome of
the subsequent `stat` call on its joined path. -/
structure RawDirent where
  name : List Char
  stat : StatResult
deriving DecidableEq

/-- Outcome of `opendir`: an errno, or the raw entries `readdir` will
produce in iteration order. -/
inductive OpendirResult where
  | err (e : Errno)
  | ok (entries : List RawDirent)
deriving DecidableEq

/-- The `OsDirEntry` record filled in by `os_readdir` (name, kind flags,
hidden flag, size, mtime).  The `ref_count` field is memory management and
is not part of the value. -/
structure OsDirEntry where
  name : List Char
  is_dir : Bool
  is_file : Bool
  is_link : Bool
  is_hidden : Bool
  size : ℕ
  mtime : ℕ
deriving DecidableEq

/-- Result of `os_readdir`: a typed error, a successful listing, or a call
to `panic` (for errno values the source treats as programming errors). -/
inductive ReaddirOutcome where
  | panicked
  | err (e : GenesisError)
  | ok (entries : List OsDirEntry)
deriving DecidableEq

/-- The errno → error-code mapping of the `opendir` failure switch in
`os_readdir` (src/os.cpp lines 217-233); `none` means the default branch,
which panics. -/
def opendirErrCode : Errno → Option GenesisError
  | .EACCES => some .PermissionDenied
  | .EMFILE => some .SystemResources
  | .ENFILE => some .SystemResources
  | .ENOENT => some .FileNotFound
  | .ENOMEM => some .NoMem
  | .ENOTDIR => some .NotDir
  | _ => none

/-- Construction of one `OsDirEntry` from a dirent name and its stat data
(src/os.cpp lines 262-274): the hidden flag is `d_name[0] == '.'`. -/
def mkDirEntry (name : List Char) (st : StatInfo) : OsDirEntry :=
  { name := name
    is_dir := st.isDir
    is_file := st.isFile
    is_link := st.isLink
    is_hidden := name.head? = some '.'
    size := st.size
    mtime := st.mtime }

/-- The `readdir` loop of `os_readdir` (src/os.cpp lines 234-281): `.` and
`..` are skipped; a failing `stat` either aborts the listing with a typed
error, skips the entry (`ENOENT`/`ENOTDIR`), or panics; successful entries
are appended in iteration order.  Allocation is modelled as succeeding. -/
def readdirLoop : List RawDirent → ReaddirOutcome
  | [] => .ok []
  | e :: rest =>
    if e.name = ['.'] ∨ e.name = ['.', '.'] then readdirLoop rest
    else
      match e.stat with
      | .err .EACCES => .err .PermissionDenied
      | .err .ELOOP => .err .Unimplemented
      | .err .ENAMETOOLONG => .err .Unimplemented
      | .err .EOVERFLOW => .err .Unimplemented
      | .err .ENOENT => readdirLoop rest
      | .err .ENOTDIR => readdirLoop rest
      | .err .ENOMEM => .err .NoMem
      | .err _ => .panicked
      | .ok st =>
        match readdirLoop rest with
        | .ok tail => .ok (mkDirEntry e.name st :: tail)
        | other => other

/-- Embedding of `os_readdir` (src/os.cpp lines 211-284). -/
def os_readdir : OpendirResult → ReaddirOutcome
  | .err e =>
    match opendirErrCode e with
    | some code => .err code
    | none => .panicked
  | .ok rawEntries => readdirLoop rawEntries

/-! ## Ring buffer (`src/ring_buffer.hpp`) -/

/-- The offset state of a `RingBuffer`.  The capacity is fixed by the
constructor (rounded to a power of two, at least the page size — the
floating-point rounding is not modelled; only positivity matters here);
the two atomic offsets are modelled as integers. -/
structure RingBuffer where
  capacity : ℤ
  writeOff : ℤ
  readOff : ℤ
deriving DecidableEq

namespace RingBuffer

/-- `fill_count` (src/ring_buffer.hpp lines 90-92): `_write_offset -
_read_offset`. -/
def fill_count (rb : RingBuffer) : ℤ := rb.writeOff - rb.readOff

/-- `free_count` (src/ring_buffer.hpp lines 95-97): `_capacity -
fill_count()`. -/
def free_count (rb : RingBuffer) : ℤ := rb.capacity - rb.fill_count

/-- `advance_write_ptr` (src/ring_buffer.hpp lines 71-73). -/
def advance_write_ptr (rb : RingBuffer) (count : ℤ) : RingBuffer :=
  { rb with writeOff := rb.writeOff + count }

/-- `advance_read_ptr` (src/ring_buffer.hpp lines 80-87): advances the read
offset and, when it reaches the capacity, wraps both offsets down by the
capacity. -/
def advance_read_ptr (rb : RingBuffer) (count : ℤ) : RingBuffer :=
  let r := rb.readOff + count
  if r ≥ rb.capacity then
    { rb with readOff := r - rb.capacity, writeOff := rb.writeOff - rb.capacity }
  else
    { rb with readOff := r }

/-- `clear` (src/ring_buffer.hpp lines 100-103): reset both offsets. -/
def clear (rb : RingBuffer) : RingBuffer :=
  { rb with writeOff := 0, readOff := 0 }

/-- The states reachable from a freshly constructed or cleared buffer by
write advances bounded by `free_count` and read advances bounded by
`fill_count`, as in the claim. -/
inductive Reach : RingBuffer → Prop where
  | start (cap : ℤ) (hc : 0 < cap) : Reach ⟨cap, 0, 0⟩
  | cleared (rb : RingBuffer) (h : Reach rb) : Reach rb.clear
  | write (rb : RingBuffer) (n : ℤ) (h : Reach rb) (h0 : 0 ≤ n)
      (hn : n ≤ rb.free_count) : Reach (rb.advance_write_ptr n)
  | read (rb : RingBuffer) (n : ℤ) (h : Reach rb) (h0 : 0 ≤ n)
      (hn : n ≤ rb.fill_count) : Reach (rb.advance_read_ptr n)

end RingBuffer

/-! ### Theorems about the OS layer and the ring buffer -/

/-- C7 counterexample: with `OsRandomQualityRobust`, unavailability of
entropy (the `open` of `/dev/random` failing) makes `os_init` call `panic`,
aborting the process, instead of propagating the typed
`GenesisErrorSystemResources` error that `get_random_seed` returned. -/
theorem os_init_panics_on_no_entropy :
    os_init OsRandomQuality.Robust EntropySource.openFails 0 0
      = InitOutcome.panicked := by
  rfl

/-- C7 (amended): `get_random_seed` itself reports entropy unavailability
(open failure, or a read of fewer than 4 bytes) as the typed error
`GenesisErrorSystemResources`; however `os_init` with `Robust` quality
treats that error as fatal and panics, and with `Pseudo` quality the
entropy source is never consulted and initialization succeeds with the
seed `time + pid`. -/
theorem get_random_seed_typed_error :
    (get_random_seed EntropySource.openFails
        = Except.error GenesisError.SystemResources) ∧
    (∀ amt seed, amt ≠ 4 →
      get_random_seed (EntropySource.readReturns amt seed)
        = Except.error GenesisError.SystemResources) ∧
    (∀ entropy time pid, ∀ e,
      get_random_seed entropy = Except.error e →
      os_init OsRandomQuality.Robust entropy time pid = InitOutcome.panicked) ∧
    (∀ entropy time pid,
      os_init OsRandomQuality.Pseudo entropy time pid
        = InitOutcome.ok (time + pid)) := by
  refine ⟨rfl, ?_, ?_, fun _ _ _ => rfl⟩
  · intro amt seed h
    simp [get_random_seed, h]
  · intro entropy time pid e h
    simp [os_init, h]

/-- Witness for `get_random_seed_typed_error` at concrete inputs: a short
read of 3 bytes is a `SystemResources` error, and `os_init` on the robust
path panics on it. -/
theorem get_random_seed_typed_error_witness :
    (get_random_seed (EntropySource.readReturns 3 7)
        = Except.error GenesisError.SystemResources) ∧
    (os_init OsRandomQuality.Robust (EntropySource.readReturns 3 7) 1 2
        = InitOutcome.panicked) :=
  ⟨get_random_seed_typed_error.2.1 3 7 (by decide),
   get_random_seed_typed_error.2.2.1 (EntropySource.readReturns 3 7) 1 2
     GenesisError.SystemResources
     (get_random_seed_typed_error.2.1 3 7 (by decide))⟩

/-- C9: for non-empty `left`, `os_path_join` returns `left ++ right` when
the last byte of `left` is `'/'`, and `left ++ "/" ++ right` otherwise —
exactly one separator is introduced at the seam.  The hypothesis `left ≠ []`
reflects that the source unconditionally reads `left`'s last byte. -/
theorem os_path_join_spec (left right : List Char) (h : left ≠ []) :
    (left.getLast h = '/' → os_path_join left right = left ++ right) ∧
    (left.getLast h ≠ '/' →
      os_path_join left right = left ++ '/' :: right) := by
  have hlast : left.getLast? = some (left.getLast h) :=
    List.getLast?_eq_getLast left h
  constructor
  · intro hslash
    simp [os_path_join, hlast, hslash]
  · intro hslash
    simp [os_path_join, hlast, hslash]

/-- Witness for `os_path_join_spec`: joining `"a/"` with `"b"` keeps the
single separator, and joining `"a"` with `"b"` introduces one. -/
theorem os_path_join_spec_witness :
    (os_path_join ['a', '/'] ['b'] = ['a', '/', 'b']) ∧
    (os_path_join ['a'] ['b'] = ['a', '/', 'b']) :=
  ⟨(os_path_join_spec ['a', '/'] ['b'] (by decide)).1 (by decide),
   (os_path_join_spec ['a'] ['b'] (by decide)).2 (by decide)⟩

/-- C8: `os_readdir` maps `opendir` failures to the matching typed errors
(`EACCES` → `PermissionDenied`, `ENOENT` → `FileNotFound`, `EMFILE`/`ENFILE`
→ `SystemResources`), and on a listing whose entries (other than `.` and
`..`) all stat successfully it returns, in iteration order, one entry per
dirent carrying the name, the dir/file/link kind flags, the size, the
mtime, and the hidden flag (name starts with `'.'`). -/
theorem os_readdir_spec (goods : List (List Char × StatInfo))
    (hdot : ∀ g ∈ goods, g.1 ≠ ['.'] ∧ g.1 ≠ ['.', '.']) :
    (os_readdir (OpendirResult.err Errno.EACCES)
      = ReaddirOutcome.err GenesisError.PermissionDenied) ∧
    (os_readdir (OpendirResult.err Errno.ENOENT)
      = ReaddirOutcome.err GenesisError.FileNotFound) ∧
    (os_readdir (OpendirResult.err Errno.EMFILE)
      = ReaddirOutcome.err GenesisError.SystemResources) ∧
    (os_readdir (OpendirResult.err Errno.ENFILE)
      = ReaddirOutcome.err GenesisError.SystemResources) ∧
    (os_readdir (OpendirResult.ok
        (goods.map fun g => RawDirent.mk g.1 (StatResult.ok g.2)))
      = ReaddirOutcome.ok (goods.map fun g => mkDirEntry g.1 g.2)) := by
  refine ⟨rfl, rfl, rfl, rfl, ?_⟩
  show readdirLoop _ = _
  induction goods with
  | nil => rfl
  | cons g rest ih =>
    have hg := hdot g (List.mem_cons_self g rest)
    have hrest : ∀ g' ∈ rest, g'.1 ≠ ['.'] ∧ g'.1 ≠ ['.', '.'] :=
      fun g' hmem => hdot g' (List.mem_cons_of_mem g hmem)
    simp only [List.map_cons, readdirLoop, hg.1, hg.2, or_self, if_false,
      ih hrest]

/-- Witness for `os_readdir_spec` at a concrete two-entry listing. -/
theorem os_readdir_spec_witness :
    (os_readdir (OpendirResult.err Errno.EACCES)
      = ReaddirOutcome.err GenesisError.PermissionDenied) ∧
    (os_readdir (OpendirResult.err Errno.ENOENT)
      = ReaddirOutcome.err GenesisError.FileNotFound) ∧
    (os_readdir (OpendirResult.err Errno.EMFILE)
      = ReaddirOutcome.err GenesisError.SystemResources) ∧
    (os_readdir (OpendirResult.err Errno.ENFILE)
      = ReaddirOutcome.err GenesisError.SystemResources) ∧
    (os_readdir (OpendirResult.ok
        ([(['a'], StatInfo.mk true false false 4 5),
          (['.', 'h'], StatInfo.mk false true false 6 7)].map
          fun g => RawDirent.mk g.1 (StatResult.ok g.2)))
      = ReaddirOutcome.ok
        ([(['a'], StatInfo.mk true false false 4 5),
          (['.', 'h'], StatInfo.mk false true false 6 7)].map
          fun g => mkDirEntry g.1 g.2)) :=
  os_readdir_spec
    [(['a'], StatInfo.mk true false false 4 5),
     (['.', 'h'], StatInfo.mk false true false 6 7)]
    (by decide)

/-- C10: from a freshly constructed or cleared ring buffer, any sequence of
`advance_write_ptr` steps bounded by `free_count` and `advance_read_ptr`
steps bounded by `fill_count` keeps `0 ≤ fill_count ≤ capacity`,
`free_count = capacity - fill_count`, and the read offset within
`[0, capacity)`. -/
theorem ring_buffer_invariant (rb : RingBuffer) (h : RingBuffer.Reach rb) :
    0 ≤ rb.fill_count ∧ rb.fill_count ≤ rb.capacity ∧
    rb.free_count = rb.capacity - rb.fill_count ∧
    0 ≤ rb.readOff ∧ rb.readOff < rb.capacity := by
  induction h with
  | start cap hc =>
    refine ⟨le_refl 0, le_of_lt hc, rfl, le_refl 0, hc⟩
  | cleared rb _ ih =>
    obtain ⟨_, _, _, h3, h4⟩ := ih
    have hc : 0 < rb.capacity := lt_of_le_of_lt h3 h4
    exact ⟨le_refl 0, le_of_lt hc, rfl, le_refl 0, hc⟩
  | write rb n _ h0 hn ih =>
    obtain ⟨i1, i2, _, i4, i5⟩ := ih
    simp only [RingBuffer.advance_write_ptr, RingBuffer.fill_count,
      RingBuffer.free_count] at *
    constructor
    · omega
    refine ⟨by omega, by trivial, i4, i5⟩
  | read rb n _ h0 hn ih =>
    obtain ⟨i1, i2, _, i4, i5⟩ := ih
    simp only [RingBuffer.advance_read_ptr, RingBuffer.fill_count,
      RingBuffer.free_count] at *
    by_cases hw : rb.readOff + n ≥ rb.capacity
    · simp only [hw, if_true]
      refine ⟨by omega, by omega, by trivial, by omega, by omega⟩
    · simp only [hw, if_false]
      refine ⟨by omega, by omega, by trivial, by omega, by omega⟩

/-- Witness for `ring_buffer_invariant`: a capacity-4 buffer after writing
3 bytes and reading 2 satisfies the invariant. -/
theorem ring_buffer_invariant_witness :
    0 ≤ (((RingBuffer.mk 4 0 0).advance_write_ptr 3).advance_read_ptr
        2).fill_count ∧
    (((RingBuffer.mk 4 0 0).advance_write_ptr 3).advance_read_ptr
        2).fill_count
      ≤ (((RingBuffer.mk 4 0 0).advance_write_ptr 3).advance_read_ptr
        2).capacity ∧
    (((RingBuffer.mk 4 0 0).advance_write_ptr 3).advance_read_ptr
        2).free_count
      = (((RingBuffer.mk 4 0 0).advance_write_ptr 3).advance_read_ptr
        2).capacity -
        (((RingBuffer.mk 4 0 0).advance_write_ptr 3).advance_read_ptr
        2).fill_count ∧
    0 ≤ (((RingBuffer.mk 4 0 0).advance_write_ptr 3).advance_read_ptr
        2).readOff ∧
    (((RingBuffer.mk 4 0 0).advance_write_ptr 3).advance_read_ptr
        2).readOff
      < (((RingBuffer.mk 4 0 0).advance_write_ptr 3).advance_read_ptr
        2).capacity :=
  ring_buffer_invariant _
    (RingBuffer.Reach.read _ 2
      (RingBuffer.Reach.write _ 3 (RingBuffer.Reach.start 4 (by decide))
        (by decide) (by decide))
      (by decide) (by decide))

/-! ## Project document model

The entity record types below follow the canonical-data fields declared in
`src/project.hpp` (prepared-view and transient fields are caches and are
omitted).  The operations (`project_perform_command`, `project_undo`,
`project_redo`, `project_insert_track`, `project_add_audio_asset`) are
declared in `src/project.hpp` but their implementation is not among the
provided sources; they are modelled from the specification as noted on
each definition. -/

/-- 256-bit random identifiers (`uint256`), modelled as naturals drawn from
a fresh-id counter that stands for the collision-free random source. -/
abbrev Id := ℕ

/-- An `IdMap`: a finite map from identifiers to entities, compared by
value. -/
abbrev IdMap (V : Type) := Finmap (fun _ : Id => V)

/-- Canonical data of a `Track` (src/project.hpp lines 39-47).  The
`SortKey` space is modelled by the rationals (see `sortKeyBetween`). -/
structure TrackData where
  name : String
  sort_key : ℚ
deriving DecidableEq

/-- Canonical data of an `AudioClipSegment` (src/project.hpp lines 49-61).
The C `end` field is named `stop` (`end` is a Lean keyword); the `double
pos` field is modelled as a rational. -/
structure SegmentData where
  audio_clip_id : Id
  track_id : Id
  start : ℤ
  stop : ℤ
  pos : ℚ
deriving DecidableEq

/-- Canonical data of an `AudioClip` (src/project.hpp lines 26-37). -/
structure ClipData where
  audio_asset_id : Id
  name : String
deriving DecidableEq

/-- Canonical data of an `AudioAsset` (src/project.hpp lines 16-24): source
path and content digest, both byte buffers. -/
structure AssetData where
  path : List ℕ
  sha256sum : List ℕ
deriving DecidableEq

/-- Canonical data of a `User` (src/project.hpp lines 63-66). -/
structure UserData where
  name : String
deriving DecidableEq

/-- Canonical data of a `MixerLine` (src/project.hpp lines 70-79). -/
structure MixerLineData where
  name : String
  sort_key : ℚ
  solo : Bool
  volume : ℚ
deriving DecidableEq

/-- Canonical data of an `Effect` (src/project.hpp lines 102-113),
flattened to the single `Send` variant that exists. -/
structure EffectData where
  mixer_line_id : Id
  sort_key : ℚ
  gain : ℚ
  send_device_id : ℤ
deriving DecidableEq

/-- The canonical entity state of a `Project` (src/project.hpp lines
120-141) without the command log: the seven entity maps, the scalar
settings and the tag metadata. -/
structure Entities where
  id : Id
  master_mixer_line_id : Id
  audio_clip_segments : IdMap SegmentData
  audio_clips : IdMap ClipData
  audio_assets : IdMap AssetData
  tracks : IdMap TrackData
  users : IdMap UserData
  mixer_lines : IdMap MixerLineData
  effects : IdMap EffectData
  channel_layout : ℕ
  sample_rate : ℤ
  tag_title : String
  tag_artist : String
  tag_album_artist : String
  tag_album : String
  tag_year : ℤ
deriving DecidableEq

/-- The six concrete mutating command variants (src/project.hpp lines
223-372).  `deleteTrack` carries the snapshot payload of the deleted track
and its owned segments, as the specification requires so that undo can
fully restore them. -/
inductive BaseCmd where
  | addTrack (track_id : Id) (name : String) (sort_key : ℚ)
  | deleteTrack (track_id : Id) (track : TrackData)
      (segments : List (Id × SegmentData))
  | addAudioClip (audio_clip_id : Id) (audio_asset_id : Id) (name : String)
  | addAudioClipSegment (audio_clip_segment_id : Id) (audio_clip_id : Id)
      (track_id : Id) (start : ℤ) (stop : ℤ) (pos : ℚ)
  | changeSampleRate (old_sample_rate : ℤ) (new_sample_rate : ℤ)
  | changeChannelLayout (old_layout : ℕ) (new_layout : ℕ)
deriving DecidableEq

/-- A command payload: a concrete mutating command, or an `UndoCommand` /
`RedoCommand` referencing a prior command by id (src/project.hpp lines
374-424). -/
inductive CmdPayload where
  | base (b : BaseCmd)
  | undoOf (other_command_id : Id)
  | redoOf (other_command_id : Id)
deriving DecidableEq

/-- A committed command: id, author, revision and payload (src/project.hpp
lines 194-221). -/
structure Cmd where
  id : Id
  user_id : Id
  revision : ℤ
  payload : CmdPayload
deriving DecidableEq

/-- Modelled from the spec: the forward (`redo`) effect of each concrete
command variant on the entity maps (`project.cpp` is absent from the
sources; §4.2 of the spec lists each variant's forward effect). -/
def applyBaseRedo (b : BaseCmd) (s : Entities) : Entities :=
  match b with
  | .addTrack tid name key =>
    { s with tracks := s.tracks.insert tid ⟨name, key⟩ }
  | .deleteTrack tid _ segs =>
    { s with
      tracks := s.tracks.erase tid
      audio_clip_segments :=
        segs.foldl (fun m q => m.erase q.1) s.audio_clip_segments }
  | .addAudioClip cid aid name =>
    { s with audio_clips := s.audio_clips.insert cid ⟨aid, name⟩ }
  | .addAudioClipSegment sid cid tid a b pos =>
    { s with audio_clip_segments :=
        s.audio_clip_segments.insert sid ⟨cid, tid, a, b, pos⟩ }
  | .changeSampleRate _ new => { s with sample_rate := new }
  | .changeChannelLayout _ new => { s with channel_layout := new }

/-- Modelled from the spec: the inverse (`undo`) effect of each concrete
command variant, restoring prior entity state (§4.2: creations are removed
from the maps, the delete-track snapshot is reinserted, scalar swaps are
reversed). -/
def applyBaseUndo (b : BaseCmd) (s : Entities) : Entities :=
  match b with
  | .addTrack tid _ _ => { s with tracks := s.tracks.erase tid }
  | .deleteTrack tid tdata segs =>
    { s with
      tracks := s.tracks.insert tid tdata
      audio_clip_segments :=
        segs.foldl (fun m q => m.insert q.1 q.2) s.audio_clip_segments }
  | .addAudioClip cid _ _ => { s with audio_clips := s.audio_clips.erase cid }
  | .addAudioClipSegment sid _ _ _ _ _ =>
    { s with audio_clip_segments := s.audio_clip_segments.erase sid }
  | .changeSampleRate old _ => { s with sample_rate := old }
  | .changeChannelLayout old _ => { s with channel_layout := old }

/-- The canonical state: entity state plus the append-only command log in
commit order (the `IdMap<Command*> commands` field, src/project.hpp lines
138-141, keyed by the commands' unique ids). -/
structure CanonState where
  entities : Entities
  commands : List Cmd
deriving DecidableEq

/-- Look a command up in the log by id (the resolution of a serialized
`other_command_id` against the `commands` map). -/
def lookupCmd (cid : Id) (log : List Cmd) : Option Cmd :=
  log.find? (fun c => c.id == cid)

/-- Modelled from the spec: committing one command — apply its effect to
the entity maps and append it to the log.  An `UndoCommand` applies the
inverse of the referenced command, a `RedoCommand` reapplies it (§4.2); a
dangling or non-concrete reference is a `Corruption` condition that never
arises through the `Project` API and is modelled as leaving the entity
maps unchanged. -/
def applyCmd (s : CanonState) (c : Cmd) : CanonState :=
  let ents :=
    match c.payload with
    | .base b => applyBaseRedo b s.entities
    | .undoOf oid =>
      match lookupCmd oid s.commands with
      | some other =>
        match other.payload with
        | .base b => applyBaseUndo b s.entities
        | _ => s.entities
      | none => s.entities
    | .redoOf oid =>
      match lookupCmd oid s.commands with
      | some other =>
        match other.payload with
        | .base b => applyBaseRedo b s.entities
        | _ => s.entities
      | none => s.entities
  { entities := ents, commands := s.commands ++ [c] }

/-- Modelled from the spec: rebuilding canonical state by replaying a
command log in commit order from a given initial entity state (§4.3
`open`). -/
def replay (init : Entities) (log : List Cmd) : CanonState :=
  log.foldl applyCmd { entities := init, commands := [] }

/-- The live `Project` aggregate: canonical state, the per-file undo stack
and cursor (src/project.hpp lines 143-147), the digest index
(`audio_assets_by_digest`, line 160), the active user, and the counters
that model `project_get_next_revision` and the collision-free random id
source. -/
structure Project where
  canon : CanonState
  undo_stack : List Cmd
  undo_stack_index : ℕ
  audio_assets_by_digest : Finmap (fun _ : List ℕ => Id)
  active_user_id : Id
  next_revision : ℤ
  next_id : Id
deriving DecidableEq

/-- Construction of a new command against a live project (the `Command`
constructor, src/project.hpp lines 197-203): fresh id, active user,
next revision. -/
def mkCmd (p : Project) (pl : CmdPayload) : Cmd :=
  ⟨p.next_id, p.active_user_id, p.next_revision, pl⟩

/-- Modelled from the spec (§4.3 `perform`): commit the command against
the canonical state, truncate the undo stack at the cursor (discarding any
stale redo tail), push the new command, and advance the cursor to the new
top. -/
def project_perform_command (p : Project) (b : BaseCmd) : Project :=
  let c := mkCmd p (.base b)
  { p with
    canon := applyCmd p.canon c
    undo_stack := p.undo_stack.take p.undo_stack_index ++ [c]
    undo_stack_index := p.undo_stack_index + 1
    next_revision := p.next_revision + 1
    next_id := p.next_id + 1 }

/-- Modelled from the spec (§4.3 `undo`): a no-op when the cursor is at the
bottom; otherwise the command at the cursor is wrapped in an `UndoCommand`
referencing it by id, which is committed through the same path as
`perform` but moves the cursor backward instead of pushing. -/
def project_undo (p : Project) : Project :=
  if p.undo_stack_index = 0 then p
  else
    match p.undo_stack[p.undo_stack_index - 1]? with
    | none => p
    | some other =>
      let c := mkCmd p (.undoOf other.id)
      { p with
        canon := applyCmd p.canon c
        undo_stack_index := p.undo_stack_index - 1
        next_revision := p.next_revision + 1
        next_id := p.next_id + 1 }

/-- Modelled from the spec (§4.3 `redo`): only valid when the cursor is
below the stack top; the command above the cursor is wrapped in a
`RedoCommand` referencing it by id and committed, and the cursor moves
forward. -/
def project_redo (p : Project) : Project :=
  if p.undo_stack_index < p.undo_stack.length then
    match p.undo_stack[p.undo_stack_index]? with
    | none => p
    | some other =>
      let c := mkCmd p (.redoOf other.id)
      { p with
        canon := applyCmd p.canon c
        undo_stack_index := p.undo_stack_index + 1
        next_revision := p.next_revision + 1
        next_id := p.next_id + 1 }
  else p

/-- Modelled from the spec: the content digest of a file's bytes.  The
digest is injective on contents (hash collisions are outside the model),
so it is modelled as the byte sequence itself. -/
def digest_of (content : List ℕ) : List ℕ := content

/-- Modelled from the spec (§4.3 `add_audio_asset`): compute the content
digest, look it up in the digest index; if found return the existing
asset's id, otherwise create a new `AudioAsset` under a fresh id and index
it by its digest.  `content` stands for the bytes read from `full_path`. -/
def project_add_audio_asset (p : Project) (full_path : List ℕ)
    (content : List ℕ) : Project × Id :=
  let digest := digest_of content
  match p.audio_assets_by_digest.lookup digest with
  | some aid => (p, aid)
  | none =>
    let aid := p.next_id
    ({ p with
        canon := { p.canon with
          entities := { p.canon.entities with
            audio_assets :=
              p.canon.entities.audio_assets.insert aid ⟨full_path, digest⟩ } }
        audio_assets_by_digest := p.audio_assets_by_digest.insert digest aid
        next_id := p.next_id + 1 },
      aid)

/-- Modelled from the spec (§4.1 SortKey): allocate a key strictly between
two existing keys, or before the first / after the last when a bound is
absent, without touching any other key.  The densely ordered key space is
modelled by the rationals (`sort_key.cpp` is absent from the sources). -/
def sortKeyBetween : Option ℚ → Option ℚ → ℚ
  | none, none => 0
  | some lo, none => lo + 1
  | none, some hi => hi - 1
  | some lo, some hi => (lo + hi) / 2

/-- Modelled from the spec: `project_insert_track(project, before, after)`
allocates a sort key between the neighbours' keys (absent neighbour =
insert at the edge) and performs an `AddTrackCommand` with it.  The fresh
random track id is passed explicitly. -/
def project_insert_track (p : Project) (before after : Option ℚ)
    (track_id : Id) (name : String) : Project :=
  project_perform_command p (.addTrack track_id name (sortKeyBetween before after))

/-- The entity state right after `project_create`: empty maps and default
settings (replay starts from this empty state). -/
def initEntities : Entities :=
  { id := 0
    master_mixer_line_id := 0
    audio_clip_segments := ∅
    audio_clips := ∅
    audio_assets := ∅
    tracks := ∅
    users := ∅
    mixer_lines := ∅
    effects := ∅
    channel_layout := 0
    sample_rate := 44100
    tag_title := ""
    tag_artist := ""
    tag_album_artist := ""
    tag_album := ""
    tag_year := 0 }

/-- A freshly created project: empty log, empty undo stack, id counter
above every id in use. -/
def initProject : Project :=
  { canon := { entities := initEntities, commands := [] }
    undo_stack := []
    undo_stack_index := 0
    audio_assets_by_digest := ∅
    active_user_id := 0
    next_revision := 0
    next_id := 1 }

/-- One call of the mutation API: `perform(command)`, `undo()` or
`redo()`. -/
inductive Op where
  | perform (b : BaseCmd)
  | undo
  | redo
deriving DecidableEq

/-- Apply one API call to a live project. -/
def runOp (p : Project) : Op → Project
  | .perform b => project_perform_command p b
  | .undo => project_undo p
  | .redo => project_redo p

/-- Run a sequence of API calls from a freshly created project. -/
def run (ops : List Op) : Project := ops.foldl runOp initProject

/-- Iterated `redo()` calls. -/
def iterRedo : ℕ → Project → Project
  | 0, p => p
  | k + 1, p => iterRedo k (project_redo p)

/-- Validity of a concrete command against the entity state it is applied
to, as established by the command constructors: creation commands carry
ids drawn fresh from the collision-free random source, `DeleteTrackCommand`
snapshots the live track and its owned segments at construction, and the
scalar-swap commands record the live old value. -/
def cmdOk (b : BaseCmd) (s : Entities) : Bool :=
  match b with
  | .addTrack tid _ _ => decide (s.tracks.lookup tid = none)
  | .deleteTrack tid tdata segs =>
    decide (s.tracks.lookup tid = some tdata) &&
    segs.all (fun q => decide (s.audio_clip_segments.lookup q.1 = some q.2)) &&
    decide ((segs.map Prod.fst).Nodup)
  | .addAudioClip cid _ _ => decide (s.audio_clips.lookup cid = none)
  | .addAudioClipSegment sid _ _ _ _ _ =>
    decide (s.audio_clip_segments.lookup sid = none)
  | .changeSampleRate old _ => decide (s.sample_rate = old)
  | .changeChannelLayout old _ => decide (s.channel_layout = old)

/-! ### Helper lemmas about maps and logs -/

lemma erase_insert_of_lookup_none {V : Type} (m : IdMap V) (k : Id) (v : V)
    (h : m.lookup k = none) : (m.insert k v).erase k = m := by
  apply Finmap.ext_lookup
  intro x
  by_cases hx : x = k
  · subst hx
    rw [Finmap.lookup_erase, h]
  · rw [Finmap.lookup_erase_ne hx, Finmap.lookup_insert_of_ne _ hx]

lemma insert_erase_of_lookup_some {V : Type} (m : IdMap V) (k : Id) (v : V)
    (h : m.lookup k = some v) : (m.erase k).insert k v = m := by
  apply Finmap.ext_lookup
  intro x
  by_cases hx : x = k
  · subst hx
    rw [Finmap.lookup_insert, h]
  · rw [Finmap.lookup_insert_of_ne _ hx, Finmap.lookup_erase_ne hx]

lemma lookup_foldl_erase_not_mem {V : Type} (segs : List (Id × V))
    (m : IdMap V) (x : Id) (hx : x ∉ segs.map Prod.fst) :
    (segs.foldl (fun acc q => acc.erase q.1) m).lookup x = m.lookup x := by
  induction segs generalizing m with
  | nil => rfl
  | cons q rest ih =>
    simp only [List.map_cons, List.mem_cons, not_or] at hx
    rw [List.foldl_cons, ih _ hx.2, Finmap.lookup_erase_ne hx.1]

lemma lookup_foldl_insert_not_mem {V : Type} (segs : List (Id × V))
    (m : IdMap V) (x : Id) (hx : x ∉ segs.map Prod.fst) :
    (segs.foldl (fun acc q => acc.insert q.1 q.2) m).lookup x = m.lookup x := by
  induction segs generalizing m with
  | nil => rfl
  | cons q rest ih =>
    simp only [List.map_cons, List.mem_cons, not_or] at hx
    rw [List.foldl_cons, ih _ hx.2, Finmap.lookup_insert_of_ne _ hx.1]

lemma lookup_foldl_insert_mem {V : Type} (segs : List (Id × V))
    (m : IdMap V) (x : Id) (v : V) (hmem : (x, v) ∈ segs)
    (hnd : (segs.map Prod.fst).Nodup) :
    (segs.foldl (fun acc q => acc.insert q.1 q.2) m).lookup x = some v := by
  induction segs generalizing m with
  | nil => cases hmem
  | cons q rest ih =>
    rw [List.map_cons, List.nodup_cons] at hnd
    rw [List.foldl_cons]
    rcases List.mem_cons.mp hmem with heq | hmem'
    · rw [← heq] at hnd ⊢
      rw [lookup_foldl_insert_not_mem rest _ x hnd.1, Finmap.lookup_insert]
    · exact ih _ hmem' hnd.2

lemma foldl_insert_foldl_erase {V : Type} (segs : List (Id × V))
    (m : IdMap V)
    (hv : ∀ q ∈ segs, m.lookup q.1 = some q.2)
    (hnd : (segs.map Prod.fst).Nodup) :
    segs.foldl (fun acc q => acc.insert q.1 q.2)
      (segs.foldl (fun acc q => acc.erase q.1) m) = m := by
  apply Finmap.ext_lookup
  intro x
  by_cases hx : x ∈ segs.map Prod.fst
  · obtain ⟨q, hq, hqx⟩ := List.mem_map.mp hx
    have hxq : (x, q.2) ∈ segs := by
      have : q = (x, q.2) := by
        cases q
        simpa using hqx
      rw [← this]
      exact hq
    rw [lookup_foldl_insert_mem segs _ x q.2 hxq hnd]
    have := hv q hq
    rw [hqx] at this
    exact this.symm
  · rw [lookup_foldl_insert_not_mem _ _ _ hx, lookup_foldl_erase_not_mem _ _ _ hx]

/-- The inverse law at the level of one concrete command: for a command
valid against `s`, `undo` exactly reverses `redo`. -/
lemma applyBase_undo_redo (b : BaseCmd) (s : Entities)
    (h : cmdOk b s = true) : applyBaseUndo b (applyBaseRedo b s) = s := by
  cases b with
  | addTrack tid name key =>
    simp only [cmdOk, decide_eq_true_eq] at h
    simp only [applyBaseRedo, applyBaseUndo]
    rw [erase_insert_of_lookup_none _ _ _ h]
  | deleteTrack tid tdata segs =>
    simp only [cmdOk, Bool.and_eq_true, decide_eq_true_eq, List.all_eq_true] at h
    obtain ⟨⟨h1, h2⟩, h3⟩ := h
    simp only [applyBaseRedo, applyBaseUndo]
    rw [insert_erase_of_lookup_some _ _ _ h1,
      foldl_insert_foldl_erase _ _ (fun q hq => h2 q hq) h3]
  | addAudioClip cid aid name =>
    simp only [cmdOk, decide_eq_true_eq] at h
    simp only [applyBaseRedo, applyBaseUndo]
    rw [erase_insert_of_lookup_none _ _ _ h]
  | addAudioClipSegment sid cid tid a b pos =>
    simp only [cmdOk, decide_eq_true_eq] at h
    simp only [applyBaseRedo, applyBaseUndo]
    rw [erase_insert_of_lookup_none _ _ _ h]
  | changeSampleRate old new =>
    simp only [cmdOk, decide_eq_true_eq] at h
    simp only [applyBaseRedo, applyBaseUndo]
    rw [← h]
  | changeChannelLayout old new =>
    simp only [cmdOk, decide_eq_true_eq] at h
    simp only [applyBaseRedo, applyBaseUndo]
    rw [← h]

lemma lookupCmd_append (cid : Id) (l1 l2 : List Cmd) :
    lookupCmd cid (l1 ++ l2) = (lookupCmd cid l1).or (lookupCmd cid l2) := by
  simp [lookupCmd, List.find?_append]

lemma lookupCmd_fresh (log : List Cmd) (cid : Id)
    (h : ∀ c ∈ log, c.id ≠ cid) : lookupCmd cid log = none := by
  rw [lookupCmd, List.find?_eq_none]
  intro c hc
  simpa using h c hc

lemma lookupCmd_singleton (c : Cmd) : lookupCmd c.id [c] = some c := by
  simp [lookupCmd, List.find?]

/-! ### Helper lemmas about the Project API -/

lemma project_undo_eq (p : Project) (other : Cmd)
    (h0 : ¬ p.undo_stack_index = 0)
    (hget : p.undo_stack[p.undo_stack_index - 1]? = some other) :
    project_undo p =
      { p with
        canon := applyCmd p.canon (mkCmd p (.undoOf other.id))
        undo_stack_index := p.undo_stack_index - 1
        next_revision := p.next_revision + 1
        next_id := p.next_id + 1 } := by
  unfold project_undo
  rw [if_neg h0, hget]

lemma project_redo_eq (p : Project) (other : Cmd)
    (hlt : p.undo_stack_index < p.undo_stack.length)
    (hget : p.undo_stack[p.undo_stack_index]? = some other) :
    project_redo p =
      { p with
        canon := applyCmd p.canon (mkCmd p (.redoOf other.id))
        undo_stack_index := p.undo_stack_index + 1
        next_revision := p.next_revision + 1
        next_id := p.next_id + 1 } := by
  unfold project_redo
  rw [if_pos hlt, hget]

lemma project_redo_noop (p : Project)
    (h : ¬ p.undo_stack_index < p.undo_stack.length) :
    project_redo p = p := by
  unfold project_redo
  rw [if_neg h]

lemma replay_snoc (init : Entities) (log : List Cmd) (c : Cmd) :
    replay init (log ++ [c]) = applyCmd (replay init log) c := by
  simp [replay, List.foldl_append]

lemma replay_inv_step (p : Project) (op : Op)
    (h : replay initEntities p.canon.commands = p.canon) :
    replay initEntities (runOp p op).canon.commands = (runOp p op).canon := by
  have key : ∀ c : Cmd,
      replay initEntities (applyCmd p.canon c).commands = applyCmd p.canon c := by
    intro c
    have hc : (applyCmd p.canon c).commands = p.canon.commands ++ [c] := rfl
    rw [hc, replay_snoc, h]
  cases op with
  | perform b => exact key _
  | undo =>
    show replay initEntities (project_undo p).canon.commands = (project_undo p).canon
    unfold project_undo
    split
    · exact h
    · split
      · exact h
      · exact key _
  | redo =>
    show replay initEntities (project_redo p).canon.commands = (project_redo p).canon
    unfold project_redo
    split
    · split
      · exact h
      · exact key _
    · exact h

lemma run_replay_inv (ops : List Op) :
    replay initEntities (run ops).canon.commands = (run ops).canon := by
  suffices h : ∀ p, replay initEntities p.canon.commands = p.canon →
      replay initEntities (ops.foldl runOp p).canon.commands
        = (ops.foldl runOp p).canon by
    exact h initProject rfl
  induction ops with
  | nil => intro p hp; exact hp
  | cons op rest ih =>
    intro p hp
    exact ih _ (replay_inv_step p op hp)

lemma run_snoc (ops : List Op) (op : Op) :
    run (ops ++ [op]) = runOp (run ops) op := by
  simp [run, List.foldl_append]

lemma applyCmd_base (s : CanonState) (c : Cmd) (b : BaseCmd)
    (hpl : c.payload = .base b) :
    applyCmd s c =
      { entities := applyBaseRedo b s.entities,
        commands := s.commands ++ [c] } := by
  simp only [applyCmd, hpl]

lemma applyCmd_undoOf (s : CanonState) (c other : Cmd) (b : BaseCmd)
    (hpl : c.payload = .undoOf other.id)
    (hlk : lookupCmd other.id s.commands = some other)
    (hob : other.payload = .base b) :
    applyCmd s c =
      { entities := applyBaseUndo b s.entities,
        commands := s.commands ++ [c] } := by
  simp only [applyCmd, hpl, hlk, hob]

lemma applyCmd_redoOf (s : CanonState) (c other : Cmd) (b : BaseCmd)
    (hpl : c.payload = .redoOf other.id)
    (hlk : lookupCmd other.id s.commands = some other)
    (hob : other.payload = .base b) :
    applyCmd s c =
      { entities := applyBaseRedo b s.entities,
        commands := s.commands ++ [c] } := by
  simp only [applyCmd, hpl, hlk, hob]

/-- Well-formedness of the digest index: every indexed asset id is below
the fresh-id counter, and no id is indexed under two digests.  This holds
for a fresh project and is maintained by `project_add_audio_asset`. -/
def DigestInv (p : Project) : Prop :=
  (∀ d aid, p.audio_assets_by_digest.lookup d = some aid → aid < p.next_id) ∧
  (∀ d d' aid, p.audio_assets_by_digest.lookup d = some aid →
    p.audio_assets_by_digest.lookup d' = some aid → d = d')

lemma digestInv_init : DigestInv initProject := by
  constructor
  · intro d aid h
    simp [initProject, Finmap.lookup_empty] at h
  · intro d d' aid h h'
    simp [initProject, Finmap.lookup_empty] at h

/-! ### Theorems about the project document model -/

/-- C1: for every sequence of committed commands (any trace of the
mutation API `perform` / `undo` / `redo`), rebuilding a project from empty
state by replaying the command log in commit order yields entity maps
(tracks, users, audio assets, audio clips, segments, mixer lines, effects)
equal by value to the live maps, and in fact the whole canonical state —
the command log alone determines it. -/
theorem replay_rebuilds_state (ops : List Op) :
    ((replay initEntities (run ops).canon.commands).entities.tracks
        = (run ops).canon.entities.tracks) ∧
    ((replay initEntities (run ops).canon.commands).entities.users
        = (run ops).canon.entities.users) ∧
    ((replay initEntities (run ops).canon.commands).entities.audio_assets
        = (run ops).canon.entities.audio_assets) ∧
    ((replay initEntities (run ops).canon.commands).entities.audio_clips
        = (run ops).canon.entities.audio_clips) ∧
    ((replay initEntities (run ops).canon.commands).entities.audio_clip_segments
        = (run ops).canon.entities.audio_clip_segments) ∧
    ((replay initEntities (run ops).canon.commands).entities.mixer_lines
        = (run ops).canon.entities.mixer_lines) ∧
    ((replay initEntities (run ops).canon.commands).entities.effects
        = (run ops).canon.entities.effects) ∧
    replay initEntities (run ops).canon.commands = (run ops).canon := by
  have h := run_replay_inv ops
  exact ⟨by rw [h], by rw [h], by rw [h], by rw [h], by rw [h], by rw [h],
    by rw [h], h⟩

/-- C2: performing a command `C` that was constructed against state `S`
(fresh created-entity ids, snapshot payload and old values taken from `S`,
as `cmdOk` records) yields `S'`; `undo()` then restores every entity map
and scalar of `S`, and `redo()` afterwards yields the entity state of `S'`
again.  In particular undoing a creation removes the created entities and
undoing a deletion restores the deleted track and its segments with
identical ids and attributes, since the entire entity state is restored.
The command log itself grows by the logged `UndoCommand`/`RedoCommand`
entries, as §4.2 of the specification prescribes. -/
theorem undo_redo_inverse (p : Project) (b : BaseCmd)
    (hstack : p.undo_stack_index ≤ p.undo_stack.length)
    (hfresh : ∀ c ∈ p.canon.commands, c.id < p.next_id)
    (hok : cmdOk b p.canon.entities = true) :
    ((project_undo (project_perform_command p b)).canon.entities
        = p.canon.entities) ∧
    ((project_redo (project_undo (project_perform_command p b))).canon.entities
        = (project_perform_command p b).canon.entities) := by
  have hbody := applyBase_undo_redo b p.canon.entities hok
  have hlen : (p.undo_stack.take p.undo_stack_index).length
      = p.undo_stack_index := by
    rw [List.length_take]
    omega
  have hget1 : (project_perform_command p b).undo_stack[
      (project_perform_command p b).undo_stack_index - 1]?
        = some (mkCmd p (.base b)) := by
    show (p.undo_stack.take p.undo_stack_index ++ [mkCmd p (.base b)])[
      p.undo_stack_index + 1 - 1]? = _
    rw [Nat.add_sub_cancel, List.getElem?_append_right (le_of_eq hlen),
      hlen, Nat.sub_self]
    rfl
  have hu := project_undo_eq (project_perform_command p b)
    (mkCmd p (.base b)) (by exact Nat.succ_ne_zero _) hget1
  have hcanon' : (project_perform_command p b).canon =
      { entities := applyBaseRedo b p.canon.entities,
        commands := p.canon.commands ++ [mkCmd p (.base b)] } :=
    applyCmd_base p.canon (mkCmd p (.base b)) b rfl
  have hfresh' : ∀ c' ∈ p.canon.commands, c'.id ≠ (mkCmd p (.base b)).id :=
    fun c' hm => Nat.ne_of_lt (hfresh c' hm)
  have hlk : lookupCmd (mkCmd p (.base b)).id
      (p.canon.commands ++ [mkCmd p (.base b)]) = some (mkCmd p (.base b)) := by
    rw [lookupCmd_append, lookupCmd_fresh _ _ hfresh', lookupCmd_singleton]
    rfl
  have A : (project_undo (project_perform_command p b)).canon.entities
      = p.canon.entities := by
    rw [hu]
    show (applyCmd (project_perform_command p b).canon
      (mkCmd (project_perform_command p b)
        (.undoOf (mkCmd p (.base b)).id))).entities = _
    rw [hcanon', applyCmd_undoOf _ _ (mkCmd p (.base b)) b rfl hlk rfl]
    exact hbody
  have hcmds'' : (project_undo (project_perform_command p b)).canon.commands
      = (p.canon.commands ++ [mkCmd p (.base b)])
        ++ [mkCmd (project_perform_command p b)
              (.undoOf (mkCmd p (.base b)).id)] := by
    rw [hu]
    show (applyCmd (project_perform_command p b).canon
      (mkCmd (project_perform_command p b)
        (.undoOf (mkCmd p (.base b)).id))).commands = _
    rw [hcanon']
    rfl
  refine ⟨A, ?_⟩
  have hstack'' : (project_undo (project_perform_command p b)).undo_stack
      = p.undo_stack.take p.undo_stack_index ++ [mkCmd p (.base b)] := by
    rw [hu]
    rfl
  have hidx'' : (project_undo (project_perform_command p b)).undo_stack_index
      = p.undo_stack_index := by
    rw [hu]
    show p.undo_stack_index + 1 - 1 = _
    omega
  have hlt : (project_undo (project_perform_command p b)).undo_stack_index
      < (project_undo (project_perform_command p b)).undo_stack.length := by
    rw [hidx'', hstack'', List.length_append, hlen]
    simp
  have hget2 : (project_undo (project_perform_command p b)).undo_stack[
      (project_undo (project_perform_command p b)).undo_stack_index]?
        = some (mkCmd p (.base b)) := by
    rw [hidx'', hstack'',
      List.getElem?_append_right (le_of_eq hlen), hlen, Nat.sub_self]
    rfl
  have hr := project_redo_eq (project_undo (project_perform_command p b))
    (mkCmd p (.base b)) hlt hget2
  have hlk2 : lookupCmd (mkCmd p (.base b)).id
      (project_undo (project_perform_command p b)).canon.commands
      = some (mkCmd p (.base b)) := by
    rw [hcmds'', lookupCmd_append, hlk]
    rfl
  rw [hr]
  show (applyCmd (project_undo (project_perform_command p b)).canon
    (mkCmd (project_undo (project_perform_command p b))
      (.redoOf (mkCmd p (.base b)).id))).entities = _
  rw [applyCmd_redoOf _ _ (mkCmd p (.base b)) b rfl hlk2 rfl]
  show applyBaseRedo b (project_undo (project_perform_command p b)).canon.entities
    = _
  rw [A, hcanon']

/-- Witness for `undo_redo_inverse`: adding a track to a fresh project,
undoing and redoing it. -/
theorem undo_redo_inverse_witness :
    ((project_undo (project_perform_command initProject
        (.addTrack 100 "Drums" 1))).canon.entities
      = initProject.canon.entities) ∧
    ((project_redo (project_undo (project_perform_command initProject
        (.addTrack 100 "Drums" 1)))).canon.entities
      = (project_perform_command initProject
          (.addTrack 100 "Drums" 1)).canon.entities) :=
  undo_redo_inverse initProject (.addTrack 100 "Drums" 1)
    (by decide) (by decide) (by decide)

/-- C3: performing a new command truncates the undo stack at the current
cursor (discarding the redo tail left by earlier undos), pushes the new
command, and moves the cursor to the new top; afterwards any number of
`redo()` calls is a no-op until a new undo occurs. -/
theorem perform_truncates_redo_tail (p : Project) (b : BaseCmd) (k : ℕ)
    (hstack : p.undo_stack_index ≤ p.undo_stack.length) :
    ((project_perform_command p b).undo_stack
        = p.undo_stack.take p.undo_stack_index ++ [mkCmd p (.base b)]) ∧
    ((project_perform_command p b).undo_stack_index
        = (project_perform_command p b).undo_stack.length) ∧
    (project_redo (project_perform_command p b)
        = project_perform_command p b) ∧
    (iterRedo k (project_perform_command p b)
        = project_perform_command p b) := by
  have h2 : (project_perform_command p b).undo_stack_index
      = (project_perform_command p b).undo_stack.length := by
    show p.undo_stack_index + 1
      = (p.undo_stack.take p.undo_stack_index ++ [mkCmd p (.base b)]).length
    simp only [List.length_append, List.length_take, List.length_cons,
      List.length_nil]
    omega
  have h3 : project_redo (project_perform_command p b)
      = project_perform_command p b :=
    project_redo_noop _ (by rw [h2]; omega)
  have h4 : ∀ j (q : Project), project_redo q = q → iterRedo j q = q := by
    intro j
    induction j with
    | zero => intro q _; rfl
    | succ n ih =>
      intro q hq
      show iterRedo n (project_redo q) = q
      rw [hq]
      exact ih q hq
  exact ⟨rfl, h2, h3, h4 k _ h3⟩

/-- Witness for `perform_truncates_redo_tail` on a fresh project. -/
theorem perform_truncates_redo_tail_witness :
    ((project_perform_command initProject (.addTrack 1 "a" 0)).undo_stack
        = initProject.undo_stack.take initProject.undo_stack_index
          ++ [mkCmd initProject (.base (.addTrack 1 "a" 0))]) ∧
    ((project_perform_command initProject (.addTrack 1 "a" 0)).undo_stack_index
        = (project_perform_command initProject (.addTrack 1 "a" 0)).undo_stack.length) ∧
    (project_redo (project_perform_command initProject (.addTrack 1 "a" 0))
        = project_perform_command initProject (.addTrack 1 "a" 0)) ∧
    (iterRedo 2 (project_perform_command initProject (.addTrack 1 "a" 0))
        = project_perform_command initProject (.addTrack 1 "a" 0)) :=
  perform_truncates_redo_tail initProject (.addTrack 1 "a" 0) 2 (by decide)

/-- C4: every effective `undo()` (cursor above the bottom, including right
after a `perform`) and every effective `redo()` (an entry above the
cursor, including at the very bottom) is itself appended to the command
log as a first-class `UndoCommand` / `RedoCommand` entry referencing by id
the command it reverses or reapplies; each conjunct assumes only what
makes its own action effective, and replaying the resulting log alone from
empty state — without any undo-stack metadata — unconditionally yields the
correct final canonical state. -/
theorem undo_redo_logged (ops : List Op) (other other' : Cmd) :
    ((0 < (run ops).undo_stack_index →
      (run ops).undo_stack[(run ops).undo_stack_index - 1]? = some other →
      (project_undo (run ops)).canon.commands
        = (run ops).canon.commands
          ++ [⟨(run ops).next_id, (run ops).active_user_id,
               (run ops).next_revision, CmdPayload.undoOf other.id⟩])) ∧
    (replay initEntities (project_undo (run ops)).canon.commands
      = (project_undo (run ops)).canon) ∧
    (((run ops).undo_stack[(run ops).undo_stack_index]? = some other' →
      (project_redo (run ops)).canon.commands
        = (run ops).canon.commands
          ++ [⟨(run ops).next_id, (run ops).active_user_id,
               (run ops).next_revision, CmdPayload.redoOf other'.id⟩])) ∧
    (replay initEntities (project_redo (run ops)).canon.commands
      = (project_redo (run ops)).canon) := by
  have hrep_u : replay initEntities (project_undo (run ops)).canon.commands
      = (project_undo (run ops)).canon := by
    have h := run_replay_inv (ops ++ [Op.undo])
    rw [run_snoc] at h
    exact h
  have hrep_r : replay initEntities (project_redo (run ops)).canon.commands
      = (project_redo (run ops)).canon := by
    have h := run_replay_inv (ops ++ [Op.redo])
    rw [run_snoc] at h
    exact h
  refine ⟨?_, hrep_u, ?_, hrep_r⟩
  · intro h1 hu
    have hne : ¬ (run ops).undo_stack_index = 0 := Nat.pos_iff_ne_zero.mp h1
    rw [project_undo_eq (run ops) other hne hu]
    rfl
  · intro hr
    have hlt : (run ops).undo_stack_index < (run ops).undo_stack.length := by
      by_contra hcon
      rw [List.getElem?_eq_none (le_of_not_lt hcon)] at hr
      cases hr
    rw [project_redo_eq (run ops) other' hlt hr]
    rfl

/-- Witness for `undo_redo_logged`: two inserts followed by one undo leave
the cursor strictly between bottom and top, so both an undo and a redo are
possible. -/
theorem undo_redo_logged_witness :
    ((project_undo (run [.perform (.addTrack 1 "a" 0),
        .perform (.addTrack 2 "b" 1), .undo])).canon.commands
      = (run [.perform (.addTrack 1 "a" 0),
          .perform (.addTrack 2 "b" 1), .undo]).canon.commands
        ++ [⟨(run [.perform (.addTrack 1 "a" 0),
              .perform (.addTrack 2 "b" 1), .undo]).next_id,
             (run [.perform (.addTrack 1 "a" 0),
              .perform (.addTrack 2 "b" 1), .undo]).active_user_id,
             (run [.perform (.addTrack 1 "a" 0),
              .perform (.addTrack 2 "b" 1), .undo]).next_revision,
             CmdPayload.undoOf (Cmd.mk 1 0 0
               (.base (.addTrack 1 "a" 0))).id⟩]) ∧
    (replay initEntities (project_undo (run [.perform (.addTrack 1 "a" 0),
        .perform (.addTrack 2 "b" 1), .undo])).canon.commands
      = (project_undo (run [.perform (.addTrack 1 "a" 0),
          .perform (.addTrack 2 "b" 1), .undo])).canon) ∧
    ((project_redo (run [.perform (.addTrack 1 "a" 0),
        .perform (.addTrack 2 "b" 1), .undo])).canon.commands
      = (run [.perform (.addTrack 1 "a" 0),
          .perform (.addTrack 2 "b" 1), .undo]).canon.commands
        ++ [⟨(run [.perform (.addTrack 1 "a" 0),
              .perform (.addTrack 2 "b" 1), .undo]).next_id,
             (run [.perform (.addTrack 1 "a" 0),
              .perform (.addTrack 2 "b" 1), .undo]).active_user_id,
             (run [.perform (.addTrack 1 "a" 0),
              .perform (.addTrack 2 "b" 1), .undo]).next_revision,
             CmdPayload.redoOf (Cmd.mk 2 0 1
               (.base (.addTrack 2 "b" 1))).id⟩]) ∧
    (replay initEntities (project_redo (run [.perform (.addTrack 1 "a" 0),
        .perform (.addTrack 2 "b" 1), .undo])).canon.commands
      = (project_redo (run [.perform (.addTrack 1 "a" 0),
          .perform (.addTrack 2 "b" 1), .undo])).canon) :=
  ⟨(undo_redo_logged
      [.perform (.addTrack 1 "a" 0), .perform (.addTrack 2 "b" 1), .undo]
      (Cmd.mk 1 0 0 (.base (.addTrack 1 "a" 0)))
      (Cmd.mk 2 0 1 (.base (.addTrack 2 "b" 1)))).1 (by decide) (by decide),
   (undo_redo_logged
      [.perform (.addTrack 1 "a" 0), .perform (.addTrack 2 "b" 1), .undo]
      (Cmd.mk 1 0 0 (.base (.addTrack 1 "a" 0)))
      (Cmd.mk 2 0 1 (.base (.addTrack 2 "b" 1)))).2.1,
   (undo_redo_logged
      [.perform (.addTrack 1 "a" 0), .perform (.addTrack 2 "b" 1), .undo]
      (Cmd.mk 1 0 0 (.base (.addTrack 1 "a" 0)))
      (Cmd.mk 2 0 1 (.base (.addTrack 2 "b" 1)))).2.2.1 (by decide),
   (undo_redo_logged
      [.perform (.addTrack 1 "a" 0), .perform (.addTrack 2 "b" 1), .undo]
      (Cmd.mk 1 0 0 (.base (.addTrack 1 "a" 0)))
      (Cmd.mk 2 0 1 (.base (.addTrack 2 "b" 1)))).2.2.2⟩

/-- C5: `add_audio_asset` deduplicates strictly on content digest —
importing the same bytes twice, under any two paths, returns the same
asset id both times, while importing different content yields a distinct
id. -/
theorem add_audio_asset_dedup (p : Project) (path1 path2 c c' : List ℕ)
    (hinv : DigestInv p) (hne : c ≠ c') :
    ((project_add_audio_asset (project_add_audio_asset p path1 c).1
        path2 c).2
      = (project_add_audio_asset p path1 c).2) ∧
    ((project_add_audio_asset (project_add_audio_asset p path1 c).1
        path2 c').2
      ≠ (project_add_audio_asset p path1 c).2) := by
  obtain ⟨hbound, hinj⟩ := hinv
  rcases h1 : p.audio_assets_by_digest.lookup (digest_of c) with _ | aid
  · constructor
    · simp only [project_add_audio_asset, h1, Finmap.lookup_insert]
    · simp only [project_add_audio_asset, h1]
      have hdig : digest_of c' ≠ digest_of c := fun h => hne (by
        simpa [digest_of] using h.symm)
      rw [Finmap.lookup_insert_of_ne _ hdig]
      rcases h2 : p.audio_assets_by_digest.lookup (digest_of c') with _ | aid2
      · simp only [h2]
        show p.next_id + 1 ≠ p.next_id
        exact Nat.succ_ne_self p.next_id
      · simp only [h2]
        show aid2 ≠ p.next_id
        exact Nat.ne_of_lt (hbound _ _ h2)
  · constructor
    · simp only [project_add_audio_asset, h1]
    · simp only [project_add_audio_asset, h1]
      rcases h2 : p.audio_assets_by_digest.lookup (digest_of c') with _ | aid2
      · simp only [h2]
        show p.next_id ≠ aid
        exact (Nat.ne_of_lt (hbound _ _ h1)).symm
      · simp only [h2]
        show aid2 ≠ aid
        intro heq
        rw [heq] at h2
        have hdd : digest_of c' = digest_of c := hinj _ _ _ h2 h1
        exact hne (by simpa [digest_of] using hdd.symm)

/-- Witness for `add_audio_asset_dedup` on a fresh project: importing the
byte `9` under two paths deduplicates, importing the byte `8` does not. -/
theorem add_audio_asset_dedup_witness :
    ((project_add_audio_asset (project_add_audio_asset initProject [1] [9]).1
        [2] [9]).2
      = (project_add_audio_asset initProject [1] [9]).2) ∧
    ((project_add_audio_asset (project_add_audio_asset initProject [1] [9]).1
        [2] [8]).2
      ≠ (project_add_audio_asset initProject [1] [9]).2) :=
  add_audio_asset_dedup initProject [1] [2] [9] [8] digestInv_init (by decide)

/-- C6: allocating a sort key between two adjacent keys (or before the
first / after the last) succeeds and compares strictly between the bounds,
and inserting a track with the allocated key leaves every other track's
stored key (its serialized value) unaltered. -/
theorem sort_key_dense (lo hi : ℚ) (x track_id : Id) (p : Project)
    (name : String) (h : lo < hi) (hx : x ≠ track_id) :
    (lo < sortKeyBetween (some lo) (some hi)) ∧
    (sortKeyBetween (some lo) (some hi) < hi) ∧
    (sortKeyBetween none (some hi) < hi) ∧
    (lo < sortKeyBetween (some lo) none) ∧
    ((project_insert_track p (some lo) (some hi) track_id
        name).canon.entities.tracks.lookup x
      = p.canon.entities.tracks.lookup x) := by
  refine ⟨?_, ?_, ?_, ?_, ?_⟩
  · show lo < (lo + hi) / 2
    linarith
  · show (lo + hi) / 2 < hi
    linarith
  · show hi - 1 < hi
    linarith
  · show lo < lo + 1
    linarith
  · show (p.canon.entities.tracks.insert track_id
        ⟨name, sortKeyBetween (some lo) (some hi)⟩).lookup x
      = p.canon.entities.tracks.lookup x
    exact Finmap.lookup_insert_of_ne _ hx

/-- Witness for `sort_key_dense` with bounds 0 and 1 on a fresh project. -/
theorem sort_key_dense_witness :
    ((0 : ℚ) < sortKeyBetween (some 0) (some 1)) ∧
    (sortKeyBetween (some 0) (some 1) < 1) ∧
    (sortKeyBetween none (some 1) < 1) ∧
    ((0 : ℚ) < sortKeyBetween (some 0) none) ∧
    ((project_insert_track initProject (some 0) (some 1) 5
        "t").canon.entities.tracks.lookup 7
      = initProject.canon.entities.tracks.lookup 7) :=
  sort_key_dense 0 1 7 5 initProject "t" (by norm_num) (by decide)

end Genesis
